import Mathlib

/-!
Verification of the Tamilflex backend ingestion pipeline.

Shallow embedding of the harvest → parse → dedupe → enrich → batched-commit
pipeline found in `parser.py`, `scraper.py` and `initial_scrape.py`.
Strings are modelled as `List Char` internally (the repository's data is
ASCII, so `Char.toLower` coincides with Python's `str.lower` on it).
-/

namespace Tamilflex

/-! ### Character and string utilities (Python `str` operations) -/

/-- ASCII portion of Python's `\s` / `str.strip` whitespace set. -/
def isPySpace (c : Char) : Bool :=
  c = ' ' || c = '\t' || c = '\n' || c = '\r' || c = '\x0b' || c = '\x0c'

/-- Python `str.lower()` (ASCII). -/
def lowerStr (cs : List Char) : List Char := cs.map Char.toLower

/-- Python's substring test `needle in hay`. -/
def containsSub (hay needle : List Char) : Bool :=
  needle.isPrefixOf hay ||
    match hay with
    | [] => false
    | _ :: t => containsSub t needle

/-- Case-insensitive substring search: `re.search(re.escape(l), raw, re.IGNORECASE)`. -/
def ciContains (hay needle : List Char) : Bool :=
  containsSub (lowerStr hay) (lowerStr needle)

/-- Python `str.strip()` (ASCII whitespace). -/
def pyStrip (cs : List Char) : List Char :=
  ((cs.dropWhile isPySpace).reverse.dropWhile isPySpace).reverse

/-- Count of leading characters satisfying `p` (maximal munch). -/
def countLeading (p : Char → Bool) : List Char → Nat
  | [] => 0
  | c :: t => if p c then countLeading p t + 1 else 0

/-- Numeric value of a decimal digit character. -/
def digitVal (c : Char) : Nat := c.toNat - '0'.toNat

/-! ### `parser.py` — lookup lists (order matters) -/

def SOURCE_FORMATS : List String :=
  ["TRUE WEB-DL", "WEB-DL", "BluRay", "Blu-Ray",
   "HQ PreDVD", "PreDVD", "HDCAM", "HDTV", "DVDRip",
   "WEBRip", "UHD", "CAM"]

def QUALITY_LABELS : List String := ["4K", "2160p", "1080p", "720p", "480p", "360p"]

def CODEC_LABELS : List String := ["HEVC", "x265", "x264", "AVC", "H.265", "H.264"]

def AUDIO_FORMAT_LABELS : List String :=
  ["DD+5.1", "DDP5.1", "DD5.1", "Atmos", "TrueHD", "DTS", "AAC 2.0", "AAC"]

/-! ### `parser.py` — field extraction -/

/-- The `for fmt in LIST: if re.search(...): break` idiom: first label that is a
case-insensitive substring of the raw title. -/
def firstLabelMatch (raw : List Char) (labels : List String) : Option String :=
  labels.find? (fun l => ciContains raw l.data)

/-- One step of the quality-tier loop: append `q` when it occurs (case-insensitively)
in the raw title and is not already recorded. -/
def addQuality (raw : List Char) (acc : List String) (q : String) : List String :=
  if ciContains raw q.data && !(acc.contains q) then acc ++ [q] else acc

/-- `parse_title`'s quality-tier scan over the fixed `QUALITY_LABELS` list. -/
def parseQualities (raw : List Char) : List String :=
  QUALITY_LABELS.foldl (addQuality raw) []

/-- `re.search(r"\((\d{4})\)", raw)` — leftmost `(dddd)` group, as an integer. -/
def parseYear : List Char → Option Nat
  | [] => none
  | c :: t =>
    match c, t with
    | '(', a :: b :: c3 :: c4 :: ')' :: _ =>
      if a.isDigit && b.isDigit && c3.isDigit && c4.isDigit then
        some (digitVal a * 1000 + digitVal b * 100 + digitVal c3 * 10 + digitVal c4)
      else parseYear t
    | _, _ => parseYear t

/-- Length of the leftmost-anchored match of `\d+(?:\.\d+)?\s*(?:GB|MB)` (case-insensitive)
at the head of `cs`; `none` when the pattern does not match here. -/
def sizeMatchLen (cs : List Char) : Option Nat :=
  let d := countLeading Char.isDigit cs
  if d = 0 then none
  else
    let rest1 := cs.drop d
    let frac :=
      match rest1 with
      | '.' :: t => let d2 := countLeading Char.isDigit t; if d2 = 0 then 0 else d2 + 1
      | _ => 0
    let rest2 := rest1.drop frac
    let sp := countLeading isPySpace rest2
    let rest3 := rest2.drop sp
    match rest3 with
    | a :: b :: _ =>
      if (a.toLower = 'g' || a.toLower = 'm') && b.toLower = 'b'
      then some (d + frac + sp + 2)
      else none
    | _ => none

/-- `re.findall` scan for the file-size pattern: left-to-right, restarting after each
match; returns (start position, matched text) pairs. `fuel` bounds the recursion;
every step consumes at least one character (`sizeMatchLen_pos`), so
`fuel = cs.length` never runs out. -/
def scanSizesF : Nat → Nat → List Char → List (Nat × List Char)
  | _, _, [] => []
  | 0, _, _ :: _ => []
  | f + 1, p, c :: t =>
    match sizeMatchLen (c :: t) with
    | some k => (p, (c :: t).take k) :: scanSizesF f (p + k) ((c :: t).drop k)
    | none => scanSizesF f (p + 1) t

def scanSizes (p : Nat) (cs : List Char) : List (Nat × List Char) :=
  scanSizesF cs.length p cs

/-- `parse_title`'s file-size list: all matches, in text order, each `.strip()`ped. -/
def parseFileSizes (raw : List Char) : List String :=
  (scanSizes 0 raw).map (fun m => String.mk (pyStrip m.2))

/-! ### `parser.py` — clean movie-name extraction
`re.match(r"^(.+?)(?=\s*\(\d{4}\)|\s*-\s*\[)", raw)` followed by bracket/paren
removal and whitespace collapsing. -/

/-- Lookahead `\s*\(\d{4}\)` at the head of `cs`. -/
def yearLookahead (cs : List Char) : Bool :=
  match cs.drop (countLeading isPySpace cs) with
  | '(' :: a :: b :: c :: d :: ')' :: _ => a.isDigit && b.isDigit && c.isDigit && d.isDigit
  | _ => false

/-- Lookahead `\s*-\s*\[` at the head of `cs`. -/
def bracketLookahead (cs : List Char) : Bool :=
  match cs.drop (countLeading isPySpace cs) with
  | '-' :: t =>
    match t.drop (countLeading isPySpace t) with
    | '[' :: _ => true
    | _ => false
  | _ => false

/-- Lazy `.+?` scan: shortest non-empty newline-free prefix after which one of the
two lookaheads succeeds (`pre` holds the consumed prefix, reversed). -/
def nameScanAux (pre : List Char) : List Char → Option (List Char)
  | [] => none
  | c :: t =>
    if c = '\n' then none
    else if yearLookahead t || bracketLookahead t then some (c :: pre).reverse
    else nameScanAux (c :: pre) t

/-- Suffix after the first `]` with no newline before it (the `\[.*?\]` body). -/
def afterCloseBracket : List Char → Option (List Char)
  | [] => none
  | c :: r => if c = ']' then some r else if c = '\n' then none else afterCloseBracket r

/-- `re.sub(r"\[.*?\]", "", name)` — drop each leftmost-shortest bracket block.
`fuel = cs.length` suffices (`afterCloseBracket_length`). -/
def removeBracketsF : Nat → List Char → List Char
  | _, [] => []
  | 0, cs => cs
  | f + 1, c :: t =>
    if c = '[' then
      match afterCloseBracket t with
      | some r => removeBracketsF f r
      | none => '[' :: removeBracketsF f t
    else c :: removeBracketsF f t

def removeBrackets (cs : List Char) : List Char :=
  removeBracketsF cs.length cs

/-- Negative-lookahead test of `\((?!\d{4}\))`: the characters after `(` are four
digits followed by `)`. -/
def isYearParen : List Char → Bool
  | a :: b :: c :: d :: ')' :: _ => a.isDigit && b.isDigit && c.isDigit && d.isDigit
  | _ => false

/-- Suffix after the first `)` (the `[^)]*\)` body; `[^)]` also matches newline). -/
def afterCloseParen : List Char → Option (List Char)
  | [] => none
  | c :: r => if c = ')' then some r else afterCloseParen r

/-- `re.sub(r"\((?!\d{4}\))[^)]*\)", "", name)` — drop non-year parentheticals.
`fuel = cs.length` suffices (`afterCloseParen_length`). -/
def removeParensF : Nat → List Char → List Char
  | _, [] => []
  | 0, cs => cs
  | f + 1, c :: t =>
    if c = '(' && !(isYearParen t) then
      match afterCloseParen t with
      | some r => removeParensF f r
      | none => '(' :: removeParensF f t
    else c :: removeParensF f t

def removeParens (cs : List Char) : List Char :=
  removeParensF cs.length cs

/-- `re.sub(r"\s+", " ", name)` — collapse every whitespace run to one space.
`fuel = cs.length` suffices (`dropWhile` never lengthens a list). -/
def collapseWsF : Nat → List Char → List Char
  | _, [] => []
  | 0, cs => cs
  | f + 1, c :: t =>
    if isPySpace c then ' ' :: collapseWsF f (t.dropWhile isPySpace)
    else c :: collapseWsF f t

def collapseWs (cs : List Char) : List Char :=
  collapseWsF cs.length cs

/-- The full clean-name computation of `parse_title`. -/
def extractName (raw : List Char) : List Char :=
  let base :=
    match nameScanAux [] raw with
    | some m => pyStrip m
    | none => pyStrip (raw.takeWhile (fun c => c ≠ '('))
  pyStrip (collapseWs (removeParens (removeBrackets base)))

/-! ### `parser.py` — spoken languages (word-boundary patterns) -/

/-- Python `\w` (ASCII). -/
def isWordChar (c : Char) : Bool := c.isAlphanum || c = '_'

def isWordCharOpt : Option Char → Bool
  | none => false
  | some c => isWordChar c

/-- Case-insensitive "starts with". -/
def ciStartsWith (needle hay : List Char) : Bool :=
  (lowerStr needle).isPrefixOf (lowerStr hay)

/-- `\b(alt₁|alt₂|…)\b` matches at the current position, whose preceding character
is a word character iff `prevIsWord`. -/
def matchWordAt (alts : List (List Char)) (prevIsWord : Bool) (cs : List Char) : Bool :=
  !prevIsWord && alts.any (fun w => ciStartsWith w cs && !(isWordCharOpt (cs.drop w.length).head?))

/-- `re.search` for a word-boundary alternation pattern. -/
def wordSearch (alts : List (List Char)) : Bool → List Char → Bool
  | prev, [] => matchWordAt alts prev []
  | prev, c :: t => matchWordAt alts prev (c :: t) || wordSearch alts (isWordChar c) t

/-- `LANGUAGE_LABELS`: name and the alternatives of its word-boundary pattern
(`\bEng(?:lish)?\b` in greedy order). -/
def LANGUAGE_LABELS : List (String × List String) :=
  [("Tamil", ["Tamil"]), ("Telugu", ["Telugu"]), ("Hindi", ["Hindi"]),
   ("Malayalam", ["Malayalam"]), ("Kannada", ["Kannada"]),
   ("English", ["English", "Eng"])]

/-- `parse_languages_from_title` (also the language loop inside `parse_title`). -/
def parseLanguages (raw : List Char) : List String :=
  LANGUAGE_LABELS.foldl
    (fun acc p =>
      if wordSearch (p.2.map String.data) false raw && !(acc.contains p.1)
      then acc ++ [p.1] else acc) []

/-! ### `parser.py` — `parse_title` and `build_downloads` -/

structure ParsedTitle where
  title : String
  year : Option Nat
  source_format : String
  qualities : List String
  codec : Option String
  audio_format : Option String
  audio_languages : String
  file_sizes : List String
deriving DecidableEq, Repr

def parse_title (raw : String) : ParsedTitle :=
  let cs := raw.data
  { title := String.mk (extractName cs)
    year := parseYear cs
    source_format := (firstLabelMatch cs SOURCE_FORMATS).getD "Unknown"
    qualities := parseQualities cs
    codec := firstLabelMatch cs CODEC_LABELS
    audio_format := firstLabelMatch cs AUDIO_FORMAT_LABELS
    audio_languages := String.intercalate " + " (parseLanguages cs)
    file_sizes := parseFileSizes cs }

structure Download where
  quality : String
  codec : String
  audio_format : String
  audio_languages : String
  file_size : String
  magnet_url : String
  source_type : String
deriving DecidableEq, Repr

def buildDownloadsAux (parsed : ParsedTitle) (i : Nat) : List String → List Download
  | [] => []
  | m :: rest =>
    { quality := parsed.qualities.getD i "Rip"
      codec := parsed.codec.getD ""
      audio_format := parsed.audio_format.getD ""
      audio_languages := parsed.audio_languages
      file_size := parsed.file_sizes.getD i "Unknown"
      magnet_url := m
      source_type := "magnet" } :: buildDownloadsAux parsed (i + 1) rest

/-- `build_downloads(magnets, parsed)` — positional pairing of links with tiers/sizes. -/
def build_downloads (magnets : List String) (parsed : ParsedTitle) : List Download :=
  buildDownloadsAux parsed 0 magnets

/-! ### `scraper.py` — enrichment (`_omdb_enrich`, `_tmdb_enrich`, `_enrich`)
Python dicts keyed by fixed string keys are modelled as functions from a `Field`
enum to `Option Value`: `none` means the key is absent, `Value.null` means the key
is present with value `None`. Network lookups are oracles passed as functions
(argument: whether the year qualifier was included in the query). -/

inductive Value where
  | null
  | str (s : String)
  | int (n : ℤ)
  | rat (q : ℚ)
  | strList (l : List String)
deriving DecidableEq, Repr

/-- Python truthiness of the values we store. -/
def Value.truthy : Value → Bool
  | .null => false
  | .str s => !s.isEmpty
  | .int n => decide (n ≠ 0)
  | .rat q => decide (q ≠ 0)
  | .strList l => !l.isEmpty

inductive Field where
  | tmdb_id | tmdb_rating | synopsis | director | actors | runtime
  | poster_url | backdrop_url | genres
deriving DecidableEq, Repr

def EnrichDict := Field → Option Value

def emptyDict : EnrichDict := fun _ => none

def truthyOpt : Option Value → Bool
  | none => false
  | some v => v.truthy

/-- Python's `round(q, 1)` on exact rationals (round-half-to-even). -/
def roundHalfEven (q : ℚ) : ℤ :=
  let f := ⌊q⌋
  if q - f < 1/2 then f
  else if (1 : ℚ)/2 < q - f then f + 1
  else if Even f then f else f + 1

def pyRound1 (q : ℚ) : ℚ := (roundHalfEven (q * 10) : ℚ) / 10

def digitsToNat (cs : List Char) : Nat := cs.foldl (fun acc c => acc * 10 + digitVal c) 0

/-- Decimal core of Python's `float(str)`: digits, optional fraction. -/
def parseUnsigned (cs : List Char) : Option ℚ :=
  let ip := cs.takeWhile Char.isDigit
  match cs.dropWhile Char.isDigit with
  | [] => if ip.isEmpty then none else some (digitsToNat ip)
  | '.' :: fr =>
    if fr.all Char.isDigit && !(ip.isEmpty && fr.isEmpty)
    then some ((digitsToNat ip : ℚ) + (digitsToNat fr : ℚ) / (10 : ℚ) ^ fr.length)
    else none
  | _ => none

def pyFloatParse (s : String) : Option ℚ :=
  match pyStrip s.data with
  | '-' :: t => (parseUnsigned t).map Neg.neg
  | '+' :: t => parseUnsigned t
  | cs => parseUnsigned cs

/-- Python's `int(str)` (decimal, optional sign). -/
def pyIntParse (s : String) : Option ℤ :=
  match pyStrip s.data with
  | '-' :: t => if !t.isEmpty && t.all Char.isDigit then some (-(digitsToNat t : ℤ)) else none
  | '+' :: t => if !t.isEmpty && t.all Char.isDigit then some (digitsToNat t : ℤ) else none
  | cs => if !cs.isEmpty && cs.all Char.isDigit then some (digitsToNat cs : ℤ) else none

/-- Python `str.replace(pat, "")` — remove all non-overlapping occurrences
(`fuel = cs.length` suffices: the matched branch consumes `pat.length ≥ 1` chars). -/
def removeAllSubF (pat : List Char) : Nat → List Char → List Char
  | _, [] => []
  | 0, cs => cs
  | f + 1, c :: t =>
    if pat.isPrefixOf (c :: t) && !pat.isEmpty
    then removeAllSubF pat f ((c :: t).drop pat.length)
    else c :: removeAllSubF pat f t

def removeAllSub (pat cs : List Char) : List Char :=
  removeAllSubF pat cs.length cs

/-- One TMDB search result (`results[0]` of the JSON response). -/
structure TmdbMovie where
  id : Option ℤ
  poster_path : Option String
  backdrop_path : Option String
  vote_average : Option ℚ
  overview : Option String

/-- The dict built by `_tmdb_enrich` from a search hit: five keys, values may be null. -/
def tmdbDict (m : TmdbMovie) : EnrichDict := fun f =>
  match f with
  | .tmdb_id => some (match m.id with | some i => .int i | none => .null)
  | .poster_url =>
    some (match m.poster_path with
          | some p => if p ≠ "" then .str ("https://image.tmdb.org/t/p/w500" ++ p) else .null
          | none => .null)
  | .backdrop_url =>
    some (match m.backdrop_path with
          | some p => if p ≠ "" then .str ("https://image.tmdb.org/t/p/w1280" ++ p) else .null
          | none => .null)
  | .tmdb_rating =>
    some (if pyRound1 (m.vote_average.getD 0) = 0 then .null
          else .rat (pyRound1 (m.vote_average.getD 0)))
  | .synopsis =>
    some (match m.overview with
          | some s => if s ≠ "" then .str s else .null
          | none => .null)
  | _ => none

/-- Python truthiness of an optional year. -/
def yearTruthy : Option Nat → Bool
  | none => false
  | some y => decide (y ≠ 0)

/-- `_tmdb_enrich(title, year)`: provider A. `lookup b` is the oracle for the search
request, `b` saying whether `primary_release_year` was sent. -/
def tmdbEnrich (token : Bool) (lookup : Bool → List TmdbMovie) (year : Option Nat) :
    EnrichDict :=
  if !token then emptyDict
  else
    let rs := lookup (yearTruthy year && decide (year.getD 0 < 2026))
    let rs := if rs.isEmpty && yearTruthy year then lookup false else rs
    match rs with
    | [] => emptyDict
    | m :: _ => tmdbDict m

/-- One OMDB JSON response; string fields default to `""` (`"0"` for the rating)
when the key is missing, as `data.get(k, default)` does. -/
structure OmdbData where
  response_false : Bool
  runtime_field : String
  imdb_rating : String
  genre_field : String
  plot : String
  director : String
  actors : String
  poster : String

/-- `_clean`: `val if val and val != "N/A" else ""`. -/
def omdbClean (v : String) : String := if v ≠ "" && v ≠ "N/A" then v else ""

/-- Runtime parsing: `"165 min"` → `165`, else null. -/
def omdbRuntime (rt : String) : Value :=
  if containsSub rt.data "min".data then
    match pyIntParse (String.mk (pyStrip (removeAllSub "min".data rt.data))) with
    | some n => .int n
    | none => .null
  else .null

/-- `float(data.get("imdbRating", "0") or "0")`, `ValueError` → `0.0`. -/
def omdbRating (s : String) : ℚ :=
  match pyFloatParse (if s = "" then "0" else s) with
  | some q => q
  | none => 0

/-- `Genre` string → list: split on commas, strip, drop empties and `"N/A"`. -/
def omdbGenres (g : String) : List String :=
  ((g.splitOn ",").map (fun s => String.mk (pyStrip s.data))).filter
    (fun s => s ≠ "" && s ≠ "N/A")

/-- The dict built by `_omdb_enrich` on success: all nine keys present. -/
def omdbDict (d : OmdbData) : EnrichDict := fun f =>
  match f with
  | .tmdb_id => some .null
  | .tmdb_rating => some (.rat (pyRound1 (omdbRating d.imdb_rating)))
  | .synopsis => some (.str (omdbClean d.plot))
  | .director => some (.str (omdbClean d.director))
  | .actors => some (.str (omdbClean d.actors))
  | .runtime => some (omdbRuntime d.runtime_field)
  | .poster_url => some (.str (omdbClean d.poster))
  | .backdrop_url => some .null
  | .genres => some (.strList (omdbGenres d.genre_field))

/-- `_omdb_enrich(title, year)`: provider B, with the year-dropped second lookup. -/
def omdbEnrich (key : Bool) (lookup : Bool → OmdbData) (year : Option Nat) : EnrichDict :=
  if !key then emptyDict
  else
    let d1 := lookup (yearTruthy year)
    let d := if d1.response_false && yearTruthy year then lookup false else d1
    if d.response_false then emptyDict else omdbDict d

/-- `_enrich(title, year)`: TMDB first; on a usable poster merge `{**omdb, **tmdb}`
(key-presence override), else OMDB alone. -/
def enrich (token key : Bool) (tLookup : Bool → List TmdbMovie)
    (oLookup : Bool → OmdbData) (year : Option Nat) : EnrichDict :=
  let t := tmdbEnrich token tLookup year
  if truthyOpt (t Field.poster_url) then
    let o := omdbEnrich key oLookup year
    fun f => (t f).or (o f)
  else omdbEnrich key oLookup year

/-! ### `scraper.py` — `_get_with_retry` -/

/-- Loop body of `_get_with_retry` from a given 1-based attempt number with `rem`
attempts left. Returns the outcome (`none` models Python's implicit `return None`
when `retries = 0`) and the list of backoff waits slept, in seconds. -/
def runRetry {E R : Type} (oracle : Nat → Except E R) :
    Nat → Nat → Option (Except E R) × List Nat
  | 0, _ => (none, [])
  | rem + 1, attempt =>
    match oracle attempt with
    | .ok r => (some (.ok r), [])
    | .error e =>
      if rem = 0 then (some (.error e), [])
      else
        let x := runRetry oracle rem (attempt + 1)
        (x.1, 2 ^ attempt :: x.2)

/-- `_get_with_retry(url, retries)`: attempt results come from `oracle` (attempt
number ↦ transport outcome). -/
def get_with_retry {E R : Type} (oracle : Nat → Except E R) (retries : Nat) :
    Option (Except E R) × List Nat :=
  runRetry oracle retries 1

/-! ### Record assembly — `_fetch_movie_detail` (incremental) and `_fetch_one` (bulk) -/

/-- The `movie` dict inserted as a `Movie` row. -/
structure MovieRow where
  title : String
  year : Option Nat
  synopsis : Value
  director : Value
  actors : Value
  poster_url : Value
  backdrop_url : Value
  tmdb_rating : Value
  tmdb_id : Value
  source_url : String
  source_format : String
  runtime : Value
deriving DecidableEq, Repr

/-- `x if truthy else y` for an optional page-scraped string (Python `or`). -/
def pyOrStr (x : Value) (y : Option String) : Value :=
  if x.truthy then x else match y with | some s => .str s | none => .null

/-- The `movie` dict built by `_fetch_movie_detail` (incremental pipeline):
enrichment-backed fields, year defaulted to the current year. -/
def detailMovieRow (parsed : ParsedTitle) (t : EnrichDict) (pagePoster : Option String)
    (url : String) (nowYear : Nat) : MovieRow :=
  { title := parsed.title
    year := some (match parsed.year with
                  | some y => if y ≠ 0 then y else nowYear
                  | none => nowYear)
    synopsis := (t Field.synopsis).getD (.str "")
    director := (t Field.director).getD (.str "")
    actors := (t Field.actors).getD (.str "")
    poster_url := pyOrStr ((t Field.poster_url).getD .null) pagePoster
    backdrop_url := (t Field.backdrop_url).getD .null
    tmdb_rating := (t Field.tmdb_rating).getD (.rat 0)
    tmdb_id := (t Field.tmdb_id).getD .null
    source_url := url
    source_format := parsed.source_format
    runtime := (t Field.runtime).getD .null }

/-- The `movie` dict built by `_fetch_one` (bulk pipeline): OMDB/TMDB skipped,
year kept as parsed (possibly absent). -/
def bulkMovieRow (parsed : ParsedTitle) (pagePoster : Option String) (url : String) :
    MovieRow :=
  { title := parsed.title
    year := parsed.year
    synopsis := .null
    director := .null
    actors := .null
    poster_url := (match pagePoster with | some s => .str s | none => .null)
    backdrop_url := .null
    tmdb_rating := .null
    tmdb_id := .null
    source_url := url
    source_format := parsed.source_format
    runtime := .null }

/-- The full per-topic dict (`movie` + association lists), as returned by
`_fetch_one` / `_fetch_movie_detail` on success. -/
structure FetchedData where
  movie : MovieRow
  genres : List String
  languages : List String
  downloads : List Download
deriving DecidableEq, Repr

/-! ### `scraper.py` — incremental harvest (`scrape_and_save_movies` link loop) -/

/-- Normalised `href`: `a["href"].strip()`. -/
def normHref (h : String) : String := String.mk (pyStrip h.data)

/-- Normalised link text: `re.sub(r"\s+", " ", a.text.strip())`. -/
def normText (t : String) : String := String.mk (collapseWs (pyStrip t.data))

/-- The two `continue` filters of the link loop: topic-path href, text length ≥ 20,
and a size/rip token in the text (case-sensitive, as in the source). -/
def qualifiesLink (href text : String) : Bool :=
  containsSub href.data "index.php?/forums/topic/".data && !(decide (text.length < 20)) &&
    (containsSub text.data "GB".data || containsSub text.data "MB".data ||
      containsSub text.data "Rips".data)

/-- The `new_topics` collection loop: skip non-qualifying links, stop the category
at the first qualifying link whose locator is already known. -/
def collectNewTopics (known : List String) : List (String × String) → List (String × String)
  | [] => []
  | (h, t) :: rest =>
    let href := normHref h
    let text := normText t
    if !(qualifiesLink href text) then collectNewTopics known rest
    else if href ∈ known then []
    else (href, text) :: collectNewTopics known rest

/-! ### `scraper.py` — incremental pipeline state machine -/

/-- Session/DB state threaded through `scrape_and_save_movies`: committed rows,
the in-memory `existing_urls` set, and the `total_added` counter. -/
structure ScrapeSt where
  committed : List String
  existing : List String
  added : Nat
deriving DecidableEq, Repr

/-- One category's page outcome: `none` models the page fetch raising. -/
structure CatOracle where
  page : Option (List (String × String))
  commitOk : Bool

/-- The per-item loop over a category's `new_topics`. Returns
(aborted?, uncommitted source_urls, existing set, added counter). An insert
failure (`failsInsert`) raises out of the loop: earlier in-memory mutations
(counter, existing set) survive, uncommitted rows await the caller's rollback. -/
def runCategoryItems (fetchDetail : String → String → Option FetchedData)
    (failsInsert : FetchedData → Bool) (committed : List String) :
    List (String × String) → List String → List String → Nat →
    Bool × List String × List String × Nat
  | [], unc, ex, added => (false, unc, ex, added)
  | (url, raw) :: rest, unc, ex, added =>
    match fetchDetail url raw with
    | none => runCategoryItems fetchDetail failsInsert committed rest unc ex added
    | some data =>
      if data.movie.source_url ∈ committed ++ unc then
        runCategoryItems fetchDetail failsInsert committed rest unc ex added
      else if failsInsert data then (true, unc, ex, added)
      else
        runCategoryItems fetchDetail failsInsert committed rest
          (unc ++ [data.movie.source_url]) (ex ++ [url]) (added + 1)

/-- Commit-or-rollback tail of one category iteration: on an aborted item loop or
a failed commit the uncommitted rows are dropped; in-memory counter and seen-set
survive either way. -/
def stepCategoryCore (st : ScrapeSt) (commitOk : Bool)
    (r : Bool × List String × List String × Nat) : ScrapeSt :=
  if r.1 then { committed := st.committed, existing := r.2.2.1, added := r.2.2.2 }
  else if commitOk then
    { committed := st.committed ++ r.2.1, existing := r.2.2.1, added := r.2.2.2 }
  else { committed := st.committed, existing := r.2.2.1, added := r.2.2.2 }

/-- One iteration of the category loop, `try`/`except` included: on any failure the
transaction is rolled back (uncommitted rows dropped) and the run continues. -/
def stepCategory (fetchDetail : String → String → Option FetchedData)
    (failsInsert : FetchedData → Bool) (st : ScrapeSt) (c : CatOracle) : ScrapeSt :=
  match c.page with
  | none => st
  | some links =>
    stepCategoryCore st c.commitOk
      (runCategoryItems fetchDetail failsInsert st.committed
        (collectNewTopics st.existing links) [] st.existing st.added)

/-- Run summary returned to the caller. -/
structure Summary where
  status : String
  message : String
  movies_added_or_updated : Nat
deriving DecidableEq, Repr

/-- `scrape_and_save_movies(db)`: load known locators, walk all categories, and
always return a summary. -/
def scrape_and_save_movies (fetchDetail : String → String → Option FetchedData)
    (failsInsert : FetchedData → Bool) (cats : List CatOracle)
    (initial : List String) : Summary × ScrapeSt :=
  let st0 : ScrapeSt := { committed := initial, existing := initial, added := 0 }
  let stN := cats.foldl (stepCategory fetchDetail failsInsert) st0
  ({ status := "success"
     message := "Cron scrape done. " ++ toString stN.added ++ " new movies added."
     movies_added_or_updated := stN.added }, stN)

/-! ### `initial_scrape.py` — `_save_batch` and `enrich_and_save` (bulk pipeline) -/

/-- The item loop of `_save_batch`: skip rows already visible to the session
(committed or flushed-uncommitted), insert the rest; an insert failure rolls
the transaction back (uncommitted rows dropped) and stops the batch, returning
the `saved` counter as it stands. Result: (committed, uncommitted, saved, failed?). -/
def saveBatchAux (fails : FetchedData → Bool) (committed : List String) :
    List FetchedData → List String → Nat → List String × Nat × Bool
  | [], unc, saved => (unc, saved, false)
  | d :: rest, unc, saved =>
    if d.movie.source_url ∈ committed ++ unc then
      saveBatchAux fails committed rest unc saved
    else if fails d then (unc, saved, true)
    else saveBatchAux fails committed rest (unc ++ [d.movie.source_url]) (saved + 1)

/-- `_save_batch(db, batch, …)`: on an item failure, roll back and return `saved`;
otherwise commit (a failing commit also rolls back, still returning `saved`). -/
def save_batch (fails : FetchedData → Bool) (commitFails : List FetchedData → Bool)
    (committed : List String) (batch : List FetchedData) : List String × Nat :=
  let r := saveBatchAux fails committed batch [] 0
  if r.2.2 then (committed, r.2.1)
  else if commitFails batch then (committed, r.2.1)
  else (committed ++ r.1, r.2.1)

/-- Fixed-size batching of completed futures (`len(batch) >= batch_size` flush plus
the final partial batch); `n = 0` flushes after every item. -/
def chunkList (n : Nat) : List α → List (List α)
  | [] => []
  | x :: xs =>
    if n = 0 then [x] :: chunkList n xs
    else (x :: xs).take n :: chunkList n ((x :: xs).drop n)
termination_by l => l.length
decreasing_by
  · simp
  · rename_i hn
    simp only [List.length_drop, List.length_cons]
    omega

/-- `enrich_and_save(db, topics, workers, batch_size)`: dedupe against the store,
fetch every pending topic (worker completion order given by `reorder`), and save
in batches. Returns the store and the total `saved` count. -/
def enrich_and_save (fetch : String × String × String → Option FetchedData)
    (fails : FetchedData → Bool) (commitFails : List FetchedData → Bool)
    (reorder : List (String × String × String) → List (String × String × String))
    (batchSize : Nat) (store : List String) (topics : List (String × String × String)) :
    List String × Nat :=
  let pending := topics.filter (fun t => !(decide (t.1 ∈ store)))
  let results := (reorder pending).filterMap fetch
  (chunkList batchSize results).foldl
    (fun acc b =>
      let r := save_batch fails commitFails acc.1 b
      (r.1, acc.2 + r.2))
    (store, 0)

/-! ### Statement vocabulary for the ordering claims -/

/-- Position of the first (case-insensitive) occurrence of `needle`, scanning from
index `p`. -/
def firstPosAux (needle : List Char) : List Char → Nat → Option Nat
  | [], p => if needle.isPrefixOf ([] : List Char) then some p else none
  | c :: t, p => if needle.isPrefixOf (c :: t) then some p else firstPosAux needle t (p + 1)

def ciFirstPos (raw lbl : List Char) : Option Nat :=
  firstPosAux (lowerStr lbl) (lowerStr raw) 0

/-- "`a` occurs no later than `b` in `raw`" (vacuously true when either is absent). -/
def occursBeforeB (raw a b : List Char) : Bool :=
  match ciFirstPos raw a, ciFirstPos raw b with
  | some pa, some pb => decide (pa < pb)
  | _, _ => true

def pairwiseB (r : α → α → Bool) : List α → Bool
  | [] => true
  | x :: xs => xs.all (r x) && pairwiseB r xs

/-- The spec's first-appearance-order invariant for one returned label list. -/
def appearanceOrdered (raw : List Char) (labels : List String) : Prop :=
  pairwiseB (fun a b => occursBeforeB raw a.data b.data) labels = true

/-- §3's invariant as claimed: both `qualityTiers` and `fileSizeLabels` preserve
first-appearance order in the source text, for every raw title. -/
def claimFirstAppearanceOrder : Prop :=
  ∀ raw : String,
    appearanceOrdered raw.data (parse_title raw).qualities ∧
    appearanceOrdered raw.data (parse_title raw).file_sizes

/-- Default `Download` used only to state indexed lookups. -/
def defaultDl : Download := ⟨"", "", "", "", "", "", ""⟩


/-- The merge policy the specification describes: A's value wins only where A
actually supplies one (a truthy value); B fills every field A left empty. -/
def specTruthyMerge (t o : EnrichDict) : EnrichDict := fun f =>
  if truthyOpt (t f) then t f else o f

/-- C3 as claimed: whenever provider A returns a usable image, the merged result
follows `specTruthyMerge`; otherwise B's result is returned unmodified. -/
def claimEnrichMergePolicy : Prop :=
  ∀ (token key : Bool) (tL : Bool → List TmdbMovie) (oL : Bool → OmdbData)
    (year : Option Nat),
    (truthyOpt (tmdbEnrich token tL year Field.poster_url) = true →
      ∀ f, enrich token key tL oL year f
        = specTruthyMerge (tmdbEnrich token tL year) (omdbEnrich key oL year) f) ∧
    (truthyOpt (tmdbEnrich token tL year Field.poster_url) = false →
      ∀ f, enrich token key tL oL year f = omdbEnrich key oL year f)

/-- A TMDB hit with a poster but an empty overview and a zero vote average. -/
def tmMovie0 : TmdbMovie := ⟨some 7, some "/p.jpg", none, some 0, some ""⟩

/-- An OMDB hit that does carry a plot, director, actors and genres. -/
def omData0 : OmdbData :=
  ⟨false, "120 min", "7.3", "Drama", "A story.", "Someone", "A, B", "http://x"⟩

/-- A minimal fetched item used to instantiate the batch theorems. -/
def mkItem (title loc : String) : FetchedData :=
  { movie := { title := title, year := none, synopsis := .null, director := .null,
               actors := .null, poster_url := .null, backdrop_url := .null,
               tmdb_rating := .null, tmdb_id := .null, source_url := loc,
               source_format := "Unknown", runtime := .null },
    genres := [], languages := [], downloads := [] }

/-! ## Theorems -/

/-! ### Supporting lemmas -/

theorem sizeMatchLen_pos {cs : List Char} {k : Nat} (h : sizeMatchLen cs = some k) : 0 < k := by
  unfold sizeMatchLen at h
  dsimp only at h
  split at h
  · exact absurd h (by simp)
  · split at h
    · split at h
      · simp only [Option.some.injEq] at h
        omega
      · exact absurd h (by simp)
    · exact absurd h (by simp)

theorem afterCloseBracket_length :
    ∀ {t r : List Char}, afterCloseBracket t = some r → r.length ≤ t.length := by
  intro t
  induction t with
  | nil => intro r h; simp [afterCloseBracket] at h
  | cons c t ih =>
    intro r h
    simp only [afterCloseBracket] at h
    split at h
    · simp only [Option.some.injEq] at h
      simp [← h]
    · split at h
      · exact absurd h (by simp)
      · exact (ih h).trans (by simp)

theorem afterCloseParen_length :
    ∀ {t r : List Char}, afterCloseParen t = some r → r.length ≤ t.length := by
  intro t
  induction t with
  | nil => intro r h; simp [afterCloseParen] at h
  | cons c t ih =>
    intro r h
    simp only [afterCloseParen] at h
    split at h
    · simp only [Option.some.injEq] at h
      simp [← h]
    · exact (ih h).trans (by simp)

theorem scanSizesF_le :
    ∀ (f p : Nat) (cs : List Char) (q : Nat × List Char),
      q ∈ scanSizesF f p cs → p ≤ q.1 := by
  intro f
  induction f with
  | zero => intro p cs q hq; cases cs <;> simp [scanSizesF] at hq
  | succ f ih =>
    intro p cs q hq
    cases cs with
    | nil => simp [scanSizesF] at hq
    | cons c t =>
      rw [scanSizesF] at hq
      rcases hms : sizeMatchLen (c :: t) with _ | k
      · rw [hms] at hq
        have := ih (p + 1) t q hq
        omega
      · rw [hms] at hq
        rcases List.mem_cons.mp hq with hq | hq
        · subst hq; exact le_refl _
        · have := ih (p + k) _ q hq
          omega

theorem scanSizesF_chain :
    ∀ (f p : Nat) (cs : List Char),
      List.Chain' (fun a b : Nat × List Char => a.1 < b.1) (scanSizesF f p cs) := by
  intro f
  induction f with
  | zero => intro p cs; cases cs <;> simp [scanSizesF]
  | succ f ih =>
    intro p cs
    cases cs with
    | nil => simp [scanSizesF]
    | cons c t =>
      rw [scanSizesF]
      rcases hms : sizeMatchLen (c :: t) with _ | k
      · exact ih (p + 1) t
      · refine List.chain'_cons'.mpr ⟨?_, ih (p + k) _⟩
        intro b hb
        have hb2 := scanSizesF_le f (p + k) _ b (List.mem_of_mem_head? hb)
        have hk := sizeMatchLen_pos hms
        simp only
        omega

theorem scanSizes_chain (p : Nat) (cs : List Char) :
    List.Chain' (fun a b : Nat × List Char => a.1 < b.1) (scanSizes p cs) :=
  scanSizesF_chain cs.length p cs

theorem foldl_addQuality_append (raw : List Char) :
    ∀ (labels acc : List String),
      ∃ s, labels.foldl (addQuality raw) acc = acc ++ s ∧ s.Sublist labels := by
  intro labels
  induction labels with
  | nil => intro acc; exact ⟨[], by simp, by simp⟩
  | cons q t ih =>
    intro acc
    simp only [List.foldl_cons]
    by_cases hcond : (ciContains raw q.data && !(acc.contains q)) = true
    · have hstep : addQuality raw acc q = acc ++ [q] := by
        simp only [addQuality]
        exact if_pos hcond
      rw [hstep]
      obtain ⟨s, hs, hsub⟩ := ih (acc ++ [q])
      exact ⟨q :: s, by simpa using hs, List.Sublist.cons₂ q hsub⟩
    · have hstep : addQuality raw acc q = acc := by
        simp only [addQuality]
        exact if_neg hcond
      rw [hstep]
      obtain ⟨s, hs, hsub⟩ := ih acc
      exact ⟨s, hs, List.Sublist.cons q hsub⟩

theorem parseQualities_sublist (raw : List Char) :
    (parseQualities raw).Sublist QUALITY_LABELS := by
  obtain ⟨s, hs, hsub⟩ := foldl_addQuality_append raw QUALITY_LABELS []
  unfold parseQualities
  rw [hs]
  simpa using hsub

theorem getD_of_le {α : Type} [Inhabited α] (l : List α) (i : Nat) (d : α)
    (h : l.length ≤ i) : l.getD i d = d := by
  simp [List.getD_eq_getElem?_getD, List.getElem?_eq_none h]

theorem buildDownloadsAux_length (parsed : ParsedTitle) :
    ∀ (ms : List String) (j : Nat), (buildDownloadsAux parsed j ms).length = ms.length := by
  intro ms
  induction ms with
  | nil => intro j; rfl
  | cons m rest ih => intro j; simp [buildDownloadsAux, ih]

theorem buildDownloadsAux_getD (parsed : ParsedTitle) :
    ∀ (ms : List String) (j i : Nat), i < ms.length →
      (buildDownloadsAux parsed j ms).getD i defaultDl =
        ⟨parsed.qualities.getD (j + i) "Rip", parsed.codec.getD "",
         parsed.audio_format.getD "", parsed.audio_languages,
         parsed.file_sizes.getD (j + i) "Unknown", ms.getD i "", "magnet"⟩ := by
  intro ms
  induction ms with
  | nil => intro j i hi; simp at hi
  | cons m rest ih =>
    intro j i hi
    cases i with
    | zero => simp [buildDownloadsAux]
    | succ i =>
      have hi' : i < rest.length := by simpa using hi
      have := ih (j + 1) i hi'
      simp only [buildDownloadsAux, List.getD_cons_succ]
      rw [this]
      have harith : j + 1 + i = j + (i + 1) := by omega
      rw [harith]

theorem build_downloads_fallback_labels (magnets : List String) (parsed : ParsedTitle)
    (hM : parsed.qualities.length < magnets.length) :
    (build_downloads magnets parsed).length = magnets.length ∧
    (∀ i, parsed.qualities.length ≤ i → i < magnets.length →
      ((build_downloads magnets parsed).getD i defaultDl).quality = "Rip") ∧
    (∀ i, parsed.file_sizes.length ≤ i → i < magnets.length →
      ((build_downloads magnets parsed).getD i defaultDl).file_size = "Unknown") ∧
    (∀ i, i < magnets.length →
      ((build_downloads magnets parsed).getD i defaultDl).codec = parsed.codec.getD "" ∧
      ((build_downloads magnets parsed).getD i defaultDl).audio_format
        = parsed.audio_format.getD "" ∧
      ((build_downloads magnets parsed).getD i defaultDl).audio_languages
        = parsed.audio_languages) := by
  refine ⟨buildDownloadsAux_length parsed magnets 0, ?_, ?_, ?_⟩
  · intro i hMi hi
    rw [show build_downloads magnets parsed = buildDownloadsAux parsed 0 magnets from rfl,
      buildDownloadsAux_getD parsed magnets 0 i hi]
    simp only [Nat.zero_add]
    rw [getD_of_le _ _ _ hMi]
  · intro i hSi hi
    rw [show build_downloads magnets parsed = buildDownloadsAux parsed 0 magnets from rfl,
      buildDownloadsAux_getD parsed magnets 0 i hi]
    simp only [Nat.zero_add]
    rw [getD_of_le _ _ _ hSi]
  · intro i hi
    rw [show build_downloads magnets parsed = buildDownloadsAux parsed 0 magnets from rfl,
      buildDownloadsAux_getD parsed magnets 0 i hi]
    exact ⟨rfl, rfl, rfl⟩


/-! ### Claim theorems -/

/-- C2 (counterexample): the claim that both `qualityTiers` and `fileSizeLabels`
preserve first-appearance order in the source text is false: in
`"Movie (2020) - [720p & 1080p - x264 - 1.4GB & 2.6GB]"` the label `"720p"` occurs
before `"1080p"`, yet the parser returns `["1080p", "720p"]` (the fixed
`QUALITY_LABELS` order). -/
theorem quality_tiers_text_order_counterexample : ¬ claimFirstAppearanceOrder := by
  intro h
  have h1 := (h "Movie (2020) - [720p & 1080p - x264 - 1.4GB & 2.6GB]").1
  have h2 : pairwiseB
      (fun a b => occursBeforeB ("Movie (2020) - [720p & 1080p - x264 - 1.4GB & 2.6GB]" : String).data a.data b.data)
      (parse_title "Movie (2020) - [720p & 1080p - x264 - 1.4GB & 2.6GB]").qualities = true := h1
  exact absurd h2 (by decide)

/-- C2 (amended): `fileSizeLabels` do preserve first-appearance order in the source
text — the match start positions underlying the returned list strictly increase —
while `qualityTiers` instead follow the canonical order of the fixed
`QUALITY_LABELS` priority list (the returned list is always a sublist of it). -/
theorem qualities_canonical_sizes_positional_order (raw : String) :
    (parse_title raw).qualities.Sublist QUALITY_LABELS ∧
    (parse_title raw).file_sizes
      = (scanSizes 0 raw.data).map (fun m => String.mk (pyStrip m.2)) ∧
    List.Chain' (fun a b : Nat × List Char => a.1 < b.1) (scanSizes 0 raw.data) :=
  ⟨parseQualities_sublist raw.data, rfl, scanSizes_chain 0 raw.data⟩

/-- C5: the documented Ghilli example parses exactly as specified — title, year,
source format, tier order, codec (the first of AVC/HEVC in the fixed priority
list, i.e. HEVC), audio format, Tamil among the languages, both file sizes — and
two magnet links pair positionally with (1080p, 12.2GB) and (720p, 3.2GB). -/
theorem ghilli_title_parse_example :
    parse_title "Ghilli (2004) Tamil TRUE WEB-DL - [1080p & 720p - AVC HEVC - DD+5.1 - 640Kbps - 12.2GB & 3.2GB]"
      = ⟨"Ghilli", some 2004, "TRUE WEB-DL", ["1080p", "720p"], some "HEVC",
         some "DD+5.1", "Tamil", ["12.2GB", "3.2GB"]⟩ ∧
    (parse_title "Ghilli (2004) Tamil TRUE WEB-DL - [1080p & 720p - AVC HEVC - DD+5.1 - 640Kbps - 12.2GB & 3.2GB]").codec
      = (CODEC_LABELS.filter (fun c => c == "AVC" || c == "HEVC")).head? ∧
    "Tamil" ∈ parseLanguages "Ghilli (2004) Tamil TRUE WEB-DL - [1080p & 720p - AVC HEVC - DD+5.1 - 640Kbps - 12.2GB & 3.2GB]".data ∧
    build_downloads ["magnet:?xt=a", "magnet:?xt=b"]
        (parse_title "Ghilli (2004) Tamil TRUE WEB-DL - [1080p & 720p - AVC HEVC - DD+5.1 - 640Kbps - 12.2GB & 3.2GB]")
      = [⟨"1080p", "HEVC", "DD+5.1", "Tamil", "12.2GB", "magnet:?xt=a", "magnet"⟩,
         ⟨"720p", "HEVC", "DD+5.1", "Tamil", "3.2GB", "magnet:?xt=b", "magnet"⟩] := by
  refine ⟨by decide, by decide, by decide, by decide⟩

/-- C6 (witness): concrete instance of `build_downloads_fallback_labels` — two
links against one parsed quality tier and one file size. -/
theorem build_downloads_fallback_labels_witness :
    (parse_title "Demo (2021) Tamil HDRip - [1080p - x264 - 700MB]").qualities.length
      < (["m1", "m2"] : List String).length ∧
    (build_downloads ["m1", "m2"]
        (parse_title "Demo (2021) Tamil HDRip - [1080p - x264 - 700MB]")).length
      = (["m1", "m2"] : List String).length ∧
    ((build_downloads ["m1", "m2"]
        (parse_title "Demo (2021) Tamil HDRip - [1080p - x264 - 700MB]")).getD 1 defaultDl).quality
      = "Rip" ∧
    ((build_downloads ["m1", "m2"]
        (parse_title "Demo (2021) Tamil HDRip - [1080p - x264 - 700MB]")).getD 1 defaultDl).file_size
      = "Unknown" ∧
    ((build_downloads ["m1", "m2"]
        (parse_title "Demo (2021) Tamil HDRip - [1080p - x264 - 700MB]")).getD 1 defaultDl).codec
      = (parse_title "Demo (2021) Tamil HDRip - [1080p - x264 - 700MB]").codec.getD "" := by
  have h := build_downloads_fallback_labels ["m1", "m2"]
    (parse_title "Demo (2021) Tamil HDRip - [1080p - x264 - 700MB]") (by decide)
  exact ⟨by decide, h.1, h.2.1 1 (by decide) (by decide), h.2.2.1 1 (by decide) (by decide),
    (h.2.2.2 1 (by decide)).1⟩

theorem runRetry_all_fail {E R : Type} (oracle : Nat → Except E R) :
    ∀ (rem attempt : Nat), 0 < rem →
      (∀ a, attempt ≤ a → a < attempt + rem → ∃ e, oracle a = Except.error e) →
      runRetry oracle rem attempt
        = (some (oracle (attempt + rem - 1)), (List.range' attempt (rem - 1)).map (2 ^ ·)) := by
  intro rem
  induction rem with
  | zero => intro attempt h; omega
  | succ r ih =>
    intro attempt _ hfail
    obtain ⟨e, he⟩ := hfail attempt (le_refl _) (by omega)
    rcases Nat.eq_zero_or_pos r with hr | hr
    · subst hr
      simp [runRetry, he]
    · simp only [runRetry, he]
      rw [if_neg (show ¬(r = 0) from by omega)]
      have hrec := ih (attempt + 1) hr (fun a ha hb => hfail a (by omega) (by omega))
      rw [hrec]
      have h1 : attempt + 1 + r - 1 = attempt + (r + 1) - 1 := by omega
      have h2 : r + 1 - 1 = r := by omega
      rw [h1, h2]
      have h3 : List.range' attempt r = attempt :: List.range' (attempt + 1) (r - 1) := by
        cases r with
        | zero => omega
        | succ r2 => simp [List.range'_succ]
      rw [h3]
      simp

theorem runRetry_first_ok {E R : Type} (oracle : Nat → Except E R) :
    ∀ (rem attempt k : Nat), attempt ≤ k → k < attempt + rem →
      (∀ a, attempt ≤ a → a < k → ∃ e, oracle a = Except.error e) →
      (∃ r, oracle k = Except.ok r) →
      runRetry oracle rem attempt
        = (some (oracle k), (List.range' attempt (k - attempt)).map (2 ^ ·)) := by
  intro rem
  induction rem with
  | zero => intro attempt k h1 h2; omega
  | succ r ih =>
    intro attempt k h1 h2 hfail hok
    rcases Nat.eq_or_lt_of_le h1 with heq | hlt
    · subst heq
      obtain ⟨v, hv⟩ := hok
      simp [runRetry, hv]
    · obtain ⟨e, he⟩ := hfail attempt (le_refl _) hlt
      have hr : 0 < r := by omega
      simp only [runRetry, he]
      rw [if_neg (show ¬(r = 0) from by omega)]
      have hrec := ih (attempt + 1) k hlt (by omega)
        (fun a ha hb => hfail a (by omega) hb) hok
      rw [hrec]
      have h3 : List.range' attempt (k - attempt)
          = attempt :: List.range' (attempt + 1) (k - (attempt + 1)) := by
        have hk : k - attempt = (k - (attempt + 1)) + 1 := by omega
        rw [hk, List.range'_succ]
      rw [h3]
      simp

/-- C8: the fetch client retries up to `retries` attempts with exponential backoff —
after the i-th failed attempt it sleeps `2^i` seconds (2 s, 4 s, 8 s, …) — returns
the response of the first successful attempt, and when every attempt fails it
propagates the final attempt's error to the caller rather than swallowing it. -/
theorem retry_backoff_and_propagation {E R : Type} (oracle : Nat → Except E R)
    (retries : Nat) (hret : 1 ≤ retries) :
    ((∀ a, 1 ≤ a → a ≤ retries → ∃ e, oracle a = Except.error e) →
       get_with_retry oracle retries
         = (some (oracle retries), (List.range' 1 (retries - 1)).map (2 ^ ·))) ∧
    (∀ k, 1 ≤ k → k ≤ retries →
       (∀ a, 1 ≤ a → a < k → ∃ e, oracle a = Except.error e) →
       (∃ r, oracle k = Except.ok r) →
       get_with_retry oracle retries
         = (some (oracle k), (List.range' 1 (k - 1)).map (2 ^ ·))) := by
  constructor
  · intro hfail
    have := runRetry_all_fail oracle retries 1 (by omega)
      (fun a ha hb => hfail a ha (by omega))
    rw [get_with_retry, this]
    have h1 : 1 + retries - 1 = retries := by omega
    rw [h1]
  · intro k hk1 hk2 hfail hok
    have := runRetry_first_ok oracle retries 1 k hk1 (by omega) hfail hok
    rw [get_with_retry, this]

/-- C8 (witness): with every attempt failing and the default `retries = 3`, the
result is the propagated error of attempt 3 after backoff waits of 2 s and 4 s. -/
theorem retry_backoff_and_propagation_witness :
    1 ≤ 3 ∧
    get_with_retry (fun _ => (Except.error "boom" : Except String Nat)) 3
      = (some (Except.error "boom"), [2, 4]) := by
  have h := (retry_backoff_and_propagation
      (fun _ => (Except.error "boom" : Except String Nat)) 3 (by decide)).1
    (fun a h1 h2 => ⟨"boom", rfl⟩)
  refine ⟨by decide, ?_⟩
  rw [h]
  rfl

/-- C7: in incremental mode, a category's link scan stops at the first qualifying
link whose locator is already known: the collected topics are exactly the
qualifying links strictly before that position, in page order (all of them — a
qualifying link before the stop position cannot be known, by minimality), and no
link at or after the stop position is collected or fetched. -/
theorem incremental_stop_at_known (known : List String) :
    ∀ (links : List (String × String)) (s : Nat) (ls : String × String),
      links.get? s = some ls →
      qualifiesLink (normHref ls.1) (normText ls.2) = true →
      normHref ls.1 ∈ known →
      (∀ j l, j < s → links.get? j = some l →
        ¬(qualifiesLink (normHref l.1) (normText l.2) = true ∧ normHref l.1 ∈ known)) →
      collectNewTopics known links
        = ((links.take s).filter (fun l => qualifiesLink (normHref l.1) (normText l.2))).map
            (fun l => (normHref l.1, normText l.2)) := by
  intro links
  induction links with
  | nil => intro s ls hs; simp at hs
  | cons hd rest ih =>
    intro s ls hs hq hk hbefore
    cases s with
    | zero =>
      rw [List.get?_cons_zero, Option.some.injEq] at hs
      subst hs
      simp only [collectNewTopics, hq, Bool.not_true, Bool.false_eq_true, if_false,
        if_pos hk, List.take_zero, List.filter_nil, List.map_nil]
    | succ s =>
      rw [List.get?_cons_succ] at hs
      have hhd := hbefore 0 hd (Nat.succ_pos s) List.get?_cons_zero
      have ihr := ih s ls hs hq hk
        (fun j l hj hl => hbefore (j + 1) l (by omega) (by simpa using hl))
      by_cases hqh : qualifiesLink (normHref hd.1) (normText hd.2) = true
      · have hkh : ¬(normHref hd.1 ∈ known) := fun hmem => hhd ⟨hqh, hmem⟩
        simp only [collectNewTopics, hqh, Bool.not_true, Bool.false_eq_true, if_false,
          if_neg hkh, List.take_succ_cons]
        rw [ihr]
        simp only [List.filter_cons, hqh, if_true, List.map_cons]
      · simp only [collectNewTopics, Bool.not_eq_true] at hqh ⊢
        rw [hqh]
        simp only [Bool.not_false, if_true]
        rw [ihr, List.take_succ_cons]
        simp only [List.filter_cons, hqh, Bool.false_eq_true, if_false]

/-- C7 (witness): a page with a qualifying new link, a non-qualifying link, a
qualifying known link and a trailing link collects only the first link. -/
theorem incremental_stop_at_known_witness :
    collectNewTopics ["index.php?/forums/topic/2-bbb"]
        [("index.php?/forums/topic/1-aaa", "Movie One (2020) Tamil HDRip - [720p - 1.4GB]"),
         ("index.php?/about", "short"),
         ("index.php?/forums/topic/2-bbb", "Movie Two (2019) Tamil HDRip - [720p - 1.2GB]"),
         ("index.php?/forums/topic/3-ccc", "Movie Three (2018) Tamil HDRip - [720p - 1.1GB]")]
      = [("index.php?/forums/topic/1-aaa", "Movie One (2020) Tamil HDRip - [720p - 1.4GB]")] := by
  have h := incremental_stop_at_known ["index.php?/forums/topic/2-bbb"]
    [("index.php?/forums/topic/1-aaa", "Movie One (2020) Tamil HDRip - [720p - 1.4GB]"),
     ("index.php?/about", "short"),
     ("index.php?/forums/topic/2-bbb", "Movie Two (2019) Tamil HDRip - [720p - 1.2GB]"),
     ("index.php?/forums/topic/3-ccc", "Movie Three (2018) Tamil HDRip - [720p - 1.1GB]")]
    2 ("index.php?/forums/topic/2-bbb", "Movie Two (2019) Tamil HDRip - [720p - 1.2GB]")
    rfl (by decide) (by decide) ?hb
  case hb =>
    intro j l hj hl
    interval_cases j
    · cases hl
      decide
    · cases hl
      decide
  exact h.trans (by decide)

/-- C10: for a raw title with no 4-digit parenthetical year, the incremental
pipeline's record builder substitutes the current calendar year (the year field
is never absent), while the bulk pipeline's builder leaves the year absent. -/
theorem year_default_incremental_vs_bulk
    (raw url : String) (t : EnrichDict) (pagePoster : Option String) (nowYear : Nat)
    (h : (parse_title raw).year = none) :
    (detailMovieRow (parse_title raw) t pagePoster url nowYear).year = some nowYear ∧
    (bulkMovieRow (parse_title raw) pagePoster url).year = none := by
  constructor
  · simp [detailMovieRow, h]
  · simp [bulkMovieRow, h]

/-- C10 (witness): a concrete yearless title, with the run happening in 2026. -/
theorem year_default_incremental_vs_bulk_witness :
    (parse_title "Some Show Tamil HDRip Episode Pack").year = none ∧
    (detailMovieRow (parse_title "Some Show Tamil HDRip Episode Pack") emptyDict none
        "index.php?/forums/topic/9-x" 2026).year = some 2026 ∧
    (bulkMovieRow (parse_title "Some Show Tamil HDRip Episode Pack") none
        "index.php?/forums/topic/9-x").year = none := by
  have h := year_default_incremental_vs_bulk "Some Show Tamil HDRip Episode Pack"
    "index.php?/forums/topic/9-x" emptyDict none 2026 (by decide)
  exact ⟨by decide, h.1, h.2⟩

theorem tmdbEnrich_cases (token : Bool) (tL : Bool → List TmdbMovie) (year : Option Nat) :
    tmdbEnrich token tL year = emptyDict ∨ ∃ m, tmdbEnrich token tL year = tmdbDict m := by
  unfold tmdbEnrich
  split
  · exact Or.inl rfl
  · dsimp only
    split
    · exact Or.inl rfl
    · exact Or.inr ⟨_, rfl⟩

/-- C3 (counterexample): the claimed merge policy — B's values fill every field A
left empty — is false. With a TMDB hit that has a poster but an empty overview,
and an OMDB hit whose plot is "A story.", the merged synopsis is TMDB's null
(the `synopsis` key is present in A's dict with value `None` and overrides B),
not OMDB's plot as the claim requires. -/
theorem enrich_merge_presence_counterexample : ¬ claimEnrichMergePolicy := by
  intro h
  have h1 := (h true true (fun _ => [tmMovie0]) (fun _ => omData0) none).1 (by decide)
  have h2 := h1 Field.synopsis
  exact absurd h2 (by decide)

/-- C3 (amended): `enrich` queries A (TMDB) first; when A's result has a usable
poster it merges `{**omdb, **tmdb}` so that A's value wins for every key present
in A's dict — poster, backdrop, synopsis, rating, external id — even when that
value is empty (`None`), while B fills exactly the keys absent from A's dict:
director, cast, genres and runtime; when A has no usable poster, B's result is
returned unmodified. -/
theorem enrich_merge_key_presence
    (token key : Bool) (tL : Bool → List TmdbMovie) (oL : Bool → OmdbData)
    (year : Option Nat) :
    (truthyOpt (tmdbEnrich token tL year Field.poster_url) = true →
       (∀ f, enrich token key tL oL year f
          = (tmdbEnrich token tL year f).or (omdbEnrich key oL year f)) ∧
       (enrich token key tL oL year Field.director
          = omdbEnrich key oL year Field.director ∧
        enrich token key tL oL year Field.actors
          = omdbEnrich key oL year Field.actors ∧
        enrich token key tL oL year Field.genres
          = omdbEnrich key oL year Field.genres ∧
        enrich token key tL oL year Field.runtime
          = omdbEnrich key oL year Field.runtime) ∧
       (enrich token key tL oL year Field.poster_url
          = tmdbEnrich token tL year Field.poster_url ∧
        enrich token key tL oL year Field.backdrop_url
          = tmdbEnrich token tL year Field.backdrop_url ∧
        enrich token key tL oL year Field.synopsis
          = tmdbEnrich token tL year Field.synopsis ∧
        enrich token key tL oL year Field.tmdb_rating
          = tmdbEnrich token tL year Field.tmdb_rating ∧
        enrich token key tL oL year Field.tmdb_id
          = tmdbEnrich token tL year Field.tmdb_id)) ∧
    (truthyOpt (tmdbEnrich token tL year Field.poster_url) = false →
       ∀ f, enrich token key tL oL year f = omdbEnrich key oL year f) := by
  constructor
  · intro htr
    have hmerge : ∀ f, enrich token key tL oL year f
        = (tmdbEnrich token tL year f).or (omdbEnrich key oL year f) := by
      intro f
      unfold enrich
      rw [if_pos htr]
    have hdict : ∃ m, tmdbEnrich token tL year = tmdbDict m := by
      rcases tmdbEnrich_cases token tL year with he | hm
      · rw [he] at htr
        exact absurd htr (by simp [emptyDict, truthyOpt])
      · exact hm
    obtain ⟨m, hm⟩ := hdict
    refine ⟨hmerge, ⟨?_, ?_, ?_, ?_⟩, ⟨?_, ?_, ?_, ?_, ?_⟩⟩
    · rw [hmerge Field.director, hm]; rfl
    · rw [hmerge Field.actors, hm]; rfl
    · rw [hmerge Field.genres, hm]; rfl
    · rw [hmerge Field.runtime, hm]; rfl
    · rw [hmerge Field.poster_url, hm]; rfl
    · rw [hmerge Field.backdrop_url, hm]; rfl
    · rw [hmerge Field.synopsis, hm]; rfl
    · rw [hmerge Field.tmdb_rating, hm]; rfl
    · rw [hmerge Field.tmdb_id, hm]; rfl
  · intro hf f
    unfold enrich
    rw [if_neg (by rw [hf]; exact Bool.false_ne_true)]

/-- C3 (witness): at the concrete oracles of the counterexample, the merged
result takes director and actors from OMDB and poster and synopsis from TMDB. -/
theorem enrich_merge_key_presence_witness :
    truthyOpt (tmdbEnrich true (fun _ => [tmMovie0]) none Field.poster_url) = true ∧
    enrich true true (fun _ => [tmMovie0]) (fun _ => omData0) none Field.director
      = omdbEnrich true (fun _ => omData0) none Field.director ∧
    enrich true true (fun _ => [tmMovie0]) (fun _ => omData0) none Field.synopsis
      = tmdbEnrich true (fun _ => [tmMovie0]) none Field.synopsis := by
  have h := (enrich_merge_key_presence true true (fun _ => [tmMovie0])
    (fun _ => omData0) none).1 (by decide)
  exact ⟨by decide, h.2.1.1, h.2.2.2.2.1⟩

theorem saveBatchAux_fail_at (fails : FetchedData → Bool) (committed : List String) :
    ∀ (k : Nat) (bt : List FetchedData) (unc : List String) (saved : Nat),
      k < bt.length →
      (∀ d ∈ bt.take (k + 1), d.movie.source_url ∉ committed ++ unc) →
      ((bt.take (k + 1)).map (fun d => d.movie.source_url)).Nodup →
      (∀ j d, j < k → bt.get? j = some d → fails d = false) →
      (∀ d, bt.get? k = some d → fails d = true) →
      ∃ unc2, saveBatchAux fails committed bt unc saved = (unc2, saved + k, true) ∧
        saveBatchAux fails committed (bt.take (k + 1)) unc saved = (unc2, saved + k, true) := by
  intro k
  induction k with
  | zero =>
    intro bt unc saved hk hnew hnodup hok hfail
    cases bt with
    | nil => simp at hk
    | cons d rest =>
      have hd : d.movie.source_url ∉ committed ++ unc := hnew d (by simp)
      have hf : fails d = true := hfail d rfl
      exact ⟨unc, by simp [saveBatchAux, hd, hf], by simp [saveBatchAux, hd, hf]⟩
  | succ k ih =>
    intro bt unc saved hk hnew hnodup hok hfail
    cases bt with
    | nil => simp at hk
    | cons d rest =>
      have hd : d.movie.source_url ∉ committed ++ unc := hnew d (by simp)
      have hfd : fails d = false := hok 0 d (Nat.succ_pos k) rfl
      have htake : (d :: rest).take (k + 1 + 1) = d :: rest.take (k + 1) := rfl
      have hmapn : ((d :: rest.take (k + 1)).map (fun d => d.movie.source_url)).Nodup := by
        rw [← htake]; exact hnodup
      simp only [List.map_cons, List.nodup_cons] at hmapn
      obtain ⟨unc2, h1, h2⟩ := ih rest (unc ++ [d.movie.source_url]) (saved + 1)
        (by simpa using hk)
        (by
          intro d2 hd2
          have hmem : d2 ∈ (d :: rest).take (k + 1 + 1) := by
            rw [htake]; exact List.mem_cons_of_mem d hd2
          have hne : d2.movie.source_url ≠ d.movie.source_url := by
            intro he
            exact hmapn.1 (he ▸ List.mem_map_of_mem (fun d => d.movie.source_url) hd2)
          have hold := hnew d2 hmem
          intro hin
          rcases List.mem_append.mp hin with hc | hu2
          · exact hold (List.mem_append.mpr (Or.inl hc))
          · rcases List.mem_append.mp hu2 with hu | hs
            · exact hold (List.mem_append.mpr (Or.inr hu))
            · exact hne (List.mem_singleton.mp hs))
        hmapn.2
        (fun j d2 hj hd2 => hok (j + 1) d2 (by omega) (by simpa using hd2))
        (fun d2 hd2 => hfail d2 (by simpa using hd2))
      have harith : saved + 1 + k = saved + (k + 1) := by omega
      refine ⟨unc2, ?_, ?_⟩
      · simp only [saveBatchAux, if_neg hd, hfd, Bool.false_eq_true, if_false]
        rw [h1, harith]
      · rw [htake]
        simp only [saveBatchAux, if_neg hd, hfd, Bool.false_eq_true, if_false]
        rw [h2, harith]

/-- C1: when the k-th item of a bulk batch (k > 0, all items fresh and earlier
inserts succeeding) fails to insert, the whole transaction is rolled back and the
batch stops immediately: the store is unchanged (so none of items 0..k are
present — the trailing items are never even processed), the reported `saved`
count is k, and every locator of items 0..k is still absent, leaving them to the
next run's dedupe gate. -/
theorem batch_insert_failure_rolls_back
    (fails : FetchedData → Bool) (commitFails : List FetchedData → Bool)
    (store : List String) (batch : List FetchedData) (k : Nat)
    (hk : k < batch.length) (h0 : 0 < k)
    (hnew : ∀ d ∈ batch.take (k + 1), d.movie.source_url ∉ store)
    (hnodup : ((batch.take (k + 1)).map (fun d => d.movie.source_url)).Nodup)
    (hok : ∀ j d, j < k → batch.get? j = some d → fails d = false)
    (hfail : ∀ d, batch.get? k = some d → fails d = true) :
    (save_batch fails commitFails store batch).1 = store ∧
    save_batch fails commitFails store batch
      = save_batch fails commitFails store (batch.take (k + 1)) ∧
    (save_batch fails commitFails store batch).2 = k ∧
    (∀ j d, j ≤ k → batch.get? j = some d →
      d.movie.source_url ∉ (save_batch fails commitFails store batch).1) := by
  obtain ⟨unc2, h1, h2⟩ := saveBatchAux_fail_at fails store k batch [] 0 hk
    (by simpa using hnew) hnodup hok hfail
  have hsb : save_batch fails commitFails store batch = (store, k) := by
    unfold save_batch
    rw [h1]
    simp
  have hsb2 : save_batch fails commitFails store (batch.take (k + 1)) = (store, k) := by
    unfold save_batch
    rw [h2]
    simp
  refine ⟨by rw [hsb], hsb.trans hsb2.symm, by rw [hsb], ?_⟩
  intro j d hj hd
  rw [hsb]
  have : (batch.take (k + 1)).get? j = some d := by
    rw [List.get?_take (by omega : j < k + 1)]
    exact hd
  exact hnew d (List.get?_mem this)

/-- C1 (witness): a three-item batch over an empty store whose second item fails:
nothing is persisted, and the reported count is 1. -/
theorem batch_insert_failure_rolls_back_witness :
    1 < ([mkItem "ok1" "u1", mkItem "bad" "u2", mkItem "ok2" "u3"] : List FetchedData).length ∧
    (save_batch (fun d => d.movie.title == "bad") (fun _ => false) []
        [mkItem "ok1" "u1", mkItem "bad" "u2", mkItem "ok2" "u3"]).1 = [] ∧
    (save_batch (fun d => d.movie.title == "bad") (fun _ => false) []
        [mkItem "ok1" "u1", mkItem "bad" "u2", mkItem "ok2" "u3"]).2 = 1 := by
  have h := batch_insert_failure_rolls_back (fun d => d.movie.title == "bad") (fun _ => false)
    [] [mkItem "ok1" "u1", mkItem "bad" "u2", mkItem "ok2" "u3"] 1 (by decide) (by decide)
    (by decide) (by decide) ?hok ?hfail
  case hok =>
    intro j d hj hd
    interval_cases j
    cases hd
    decide
  case hfail =>
    intro d hd
    cases hd
    decide
  exact ⟨by decide, h.1, h.2.2.1⟩

theorem saveBatchAux_success (fails : FetchedData → Bool) (committed : List String)
    (hfails : ∀ d, fails d = false) :
    ∀ (bt : List FetchedData) (unc : List String) (saved : Nat),
      ∃ nb, saveBatchAux fails committed bt unc saved
          = (unc ++ nb, saved + nb.length, false) ∧
        nb.Nodup ∧
        (∀ u ∈ nb, u ∉ committed ++ unc) ∧
        (∀ d ∈ bt, d.movie.source_url ∈ committed ++ unc ++ nb) := by
  intro bt
  induction bt with
  | nil =>
    intro unc saved
    exact ⟨[], by simp [saveBatchAux], by simp, by simp, by simp⟩
  | cons d rest ih =>
    intro unc saved
    by_cases hmem : d.movie.source_url ∈ committed ++ unc
    · obtain ⟨nb, hres, hnodup, hfresh, hcompl⟩ := ih unc saved
      refine ⟨nb, ?_, hnodup, hfresh, ?_⟩
      · simp only [saveBatchAux, if_pos hmem]
        exact hres
      · intro d2 hd2
        rcases List.mem_cons.mp hd2 with he | hr
        · subst he
          exact List.mem_append.mpr (Or.inl hmem)
        · exact hcompl d2 hr
    · obtain ⟨nb, hres, hnodup, hfresh, hcompl⟩ := ih (unc ++ [d.movie.source_url]) (saved + 1)
      have hset : committed ++ (unc ++ [d.movie.source_url])
          = (committed ++ unc) ++ [d.movie.source_url] := by simp
      refine ⟨d.movie.source_url :: nb, ?_, ?_, ?_, ?_⟩
      · simp only [saveBatchAux, if_neg hmem, hfails d, Bool.false_eq_true, if_false]
        rw [hres]
        have h1 : unc ++ [d.movie.source_url] ++ nb = unc ++ (d.movie.source_url :: nb) := by
          simp
        have h2 : saved + 1 + nb.length = saved + (d.movie.source_url :: nb).length := by
          simp
          omega
        rw [h1, h2]
      · refine List.nodup_cons.mpr ⟨?_, hnodup⟩
        intro hin
        have := hfresh _ hin
        rw [hset] at this
        exact this (List.mem_append.mpr (Or.inr (List.mem_singleton.mpr rfl)))
      · intro u hu
        rcases List.mem_cons.mp hu with he | hr
        · subst he
          exact hmem
        · have := hfresh u hr
          rw [hset] at this
          intro hin
          exact this (List.mem_append.mpr (Or.inl hin))
      · intro d2 hd2
        rcases List.mem_cons.mp hd2 with he | hr
        · subst he
          refine List.mem_append.mpr (Or.inr ?_)
          exact List.mem_cons_self _ _
        · have := hcompl d2 hr
          have heq : committed ++ (unc ++ [d.movie.source_url]) ++ nb
              = committed ++ unc ++ (d.movie.source_url :: nb) := by simp
          rw [heq] at this
          exact this

theorem save_batch_success (fails : FetchedData → Bool)
    (commitFails : List FetchedData → Bool) (hfails : ∀ d, fails d = false)
    (hcommit : ∀ b, commitFails b = false) (committed : List String)
    (b : List FetchedData) :
    ∃ nb, save_batch fails commitFails committed b = (committed ++ nb, nb.length) ∧
      nb.Nodup ∧ (∀ u ∈ nb, u ∉ committed) ∧
      (∀ d ∈ b, d.movie.source_url ∈ committed ++ nb) := by
  obtain ⟨nb, hres, hnodup, hfresh, hcompl⟩ := saveBatchAux_success fails committed hfails b [] 0
  refine ⟨nb, ?_, hnodup, ?_, ?_⟩
  · unfold save_batch
    rw [hres]
    simp [hcommit b]
  · intro u hu
    have := hfresh u hu
    simpa using this
  · intro d hd
    have := hcompl d hd
    simpa using this

theorem foldBatches_success (fails : FetchedData → Bool)
    (commitFails : List FetchedData → Bool) (hfails : ∀ d, fails d = false)
    (hcommit : ∀ b, commitFails b = false) :
    ∀ (bs : List (List FetchedData)) (store : List String) (acc : Nat),
      ∃ new, bs.foldl
          (fun acc2 b =>
            let r := save_batch fails commitFails acc2.1 b
            (r.1, acc2.2 + r.2))
          (store, acc) = (store ++ new, acc + new.length) ∧
        new.Nodup ∧ (∀ u ∈ new, u ∉ store) ∧
        (∀ d ∈ bs.flatten, d.movie.source_url ∈ store ++ new) := by
  intro bs
  induction bs with
  | nil =>
    intro store acc
    exact ⟨[], by simp, by simp, by simp, by simp⟩
  | cons b rest ih =>
    intro store acc
    obtain ⟨nb, hb, hbnodup, hbfresh, hbcompl⟩ :=
      save_batch_success fails commitFails hfails hcommit store b
    obtain ⟨new2, hrest, hrnodup, hrfresh, hrcompl⟩ := ih (store ++ nb) (acc + nb.length)
    refine ⟨nb ++ new2, ?_, ?_, ?_, ?_⟩
    · simp only [List.foldl_cons]
      rw [show (let r := save_batch fails commitFails store b; (r.1, acc + r.2))
            = (store ++ nb, acc + nb.length) from by rw [hb]]
      rw [hrest]
      have h1 : store ++ nb ++ new2 = store ++ (nb ++ new2) := by simp
      have h2 : acc + nb.length + new2.length = acc + (nb ++ new2).length := by
        simp
        omega
      rw [h1, h2]
    · refine List.nodup_append.mpr ⟨hbnodup, hrnodup, ?_⟩
      intro u hu hv
      exact (hrfresh u hv) (List.mem_append.mpr (Or.inr hu))
    · intro u hu
      rcases List.mem_append.mp hu with h1 | h2
      · exact hbfresh u h1
      · intro hin
        exact (hrfresh u h2) (List.mem_append.mpr (Or.inl hin))
    · intro d hd
      rw [List.flatten_cons] at hd
      rcases List.mem_append.mp hd with h1 | h2
      · have := hbcompl d h1
        rcases List.mem_append.mp this with ha | hb2
        · exact List.mem_append.mpr (Or.inl ha)
        · exact List.mem_append.mpr (Or.inr (List.mem_append.mpr (Or.inl hb2)))
      · have := hrcompl d h2
        rcases List.mem_append.mp this with ha | hb2
        · rcases List.mem_append.mp ha with hs | hn
          · exact List.mem_append.mpr (Or.inl hs)
          · exact List.mem_append.mpr (Or.inr (List.mem_append.mpr (Or.inl hn)))
        · exact List.mem_append.mpr (Or.inr (List.mem_append.mpr (Or.inr hb2)))

theorem chunkList_flatten {α : Type} (n : Nat) :
    ∀ l : List α, (chunkList n l).flatten = l := by
  intro l
  induction l using chunkList.induct n with
  | case1 => simp [chunkList]
  | case2 x xs hn ih =>
    rw [chunkList, if_pos hn]
    simp only [List.flatten_cons]
    rw [ih]
    simp
  | case3 x xs hn ih =>
    rw [chunkList, if_neg hn]
    simp only [List.flatten_cons]
    rw [ih, List.take_append_drop]



/-- C4: over the same topic list and a deterministic fetch, the bulk enrich-and-save
phase inserts each locator at most once — the store grows by a duplicate-free set
of locators disjoint from the existing ones — and an immediate second run (any
worker completion order) persists nothing and reports an added count of 0. -/
theorem bulk_pipeline_idempotent
    (fetch : String × String × String → Option FetchedData)
    (fails : FetchedData → Bool) (commitFails : List FetchedData → Bool)
    (reorder1 reorder2 : List (String × String × String) → List (String × String × String))
    (batchSize : Nat) (store : List String) (topics : List (String × String × String))
    (hfails : ∀ d, fails d = false)
    (hcommit : ∀ b, commitFails b = false)
    (hr1 : ∀ l, (reorder1 l).Perm l) (hr2 : ∀ l, (reorder2 l).Perm l)
    (hfetch : ∀ t d, fetch t = some d → d.movie.source_url = t.1) :
    ∃ new,
      (enrich_and_save fetch fails commitFails reorder1 batchSize store topics).1
        = store ++ new ∧
      new.Nodup ∧ (∀ u ∈ new, u ∉ store) ∧
      enrich_and_save fetch fails commitFails reorder2 batchSize (store ++ new) topics
        = (store ++ new, 0) := by
  obtain ⟨new, hfold, hnodup, hfresh, hcompl⟩ :=
    foldBatches_success fails commitFails hfails hcommit
      (chunkList batchSize
        ((reorder1 (topics.filter (fun t => !(decide (t.1 ∈ store))))).filterMap fetch))
      store 0
  have hrun1 : enrich_and_save fetch fails commitFails reorder1 batchSize store topics
      = (store ++ new, 0 + new.length) := by
    unfold enrich_and_save
    exact hfold
  refine ⟨new, by rw [hrun1], hnodup, hfresh, ?_⟩
  have hnone : ∀ t ∈ reorder2 (topics.filter (fun t => !(decide (t.1 ∈ store ++ new)))),
      fetch t = none := by
    intro t ht
    have ht2 : t ∈ topics.filter (fun t => !(decide (t.1 ∈ store ++ new))) :=
      (hr2 _).mem_iff.mp ht
    have ht3 := List.mem_filter.mp ht2
    have htnotin : t.1 ∉ store ++ new := by
      have := ht3.2
      simpa using this
    rcases hf : fetch t with _ | d
    · rfl
    · exfalso
      have hts : t.1 ∉ store := fun hs => htnotin (List.mem_append.mpr (Or.inl hs))
      have htp1 : t ∈ topics.filter (fun t => !(decide (t.1 ∈ store))) :=
        List.mem_filter.mpr ⟨ht3.1, by simpa using hts⟩
      have htr1 : t ∈ reorder1 (topics.filter (fun t => !(decide (t.1 ∈ store)))) :=
        (hr1 _).mem_iff.mpr htp1
      have hd1 : d ∈ (reorder1 (topics.filter (fun t => !(decide (t.1 ∈ store))))).filterMap
          fetch := List.mem_filterMap.mpr ⟨t, htr1, hf⟩
      have hd2 : d ∈ (chunkList batchSize
          ((reorder1 (topics.filter (fun t => !(decide (t.1 ∈ store))))).filterMap
            fetch)).flatten := by
        rw [chunkList_flatten]
        exact hd1
      have := hcompl d hd2
      rw [hfetch t d hf] at this
      exact htnotin this
  have hempty : (reorder2 (topics.filter
      (fun t => !(decide (t.1 ∈ store ++ new))))).filterMap fetch = [] :=
    List.filterMap_eq_nil_iff.mpr hnone
  have hdef2 : enrich_and_save fetch fails commitFails reorder2 batchSize (store ++ new)
      topics
      = (chunkList batchSize
          ((reorder2 (topics.filter (fun t => !(decide (t.1 ∈ store ++ new))))).filterMap
            fetch)).foldl
          (fun acc b =>
            let r := save_batch fails commitFails acc.1 b
            (r.1, acc.2 + r.2))
          (store ++ new, 0) := rfl
  rw [hdef2, hempty]
  simp [chunkList]

/-- C4 (witness): two fresh topics over an empty store, a fetch that succeeds for
every topic, no insert or commit failures, submission completion order. -/
theorem bulk_pipeline_idempotent_witness :
    ∃ new,
      (enrich_and_save (fun t => some (mkItem t.2.1 t.1)) (fun _ => false) (fun _ => false)
          id 50 [] [("u1", "A", "Tamil"), ("u2", "B", "Tamil")]).1 = [] ++ new ∧
      new.Nodup ∧ (∀ u ∈ new, u ∉ ([] : List String)) ∧
      enrich_and_save (fun t => some (mkItem t.2.1 t.1)) (fun _ => false) (fun _ => false)
          id 50 ([] ++ new) [("u1", "A", "Tamil"), ("u2", "B", "Tamil")]
        = ([] ++ new, 0) :=
  bulk_pipeline_idempotent (fun t => some (mkItem t.2.1 t.1)) (fun _ => false)
    (fun _ => false) id id 50 [] [("u1", "A", "Tamil"), ("u2", "B", "Tamil")]
    (fun _ => rfl) (fun _ => rfl) (fun l => List.Perm.refl l) (fun l => List.Perm.refl l)
    (fun t d h => by cases h; rfl)

/-- C9: an incremental run is total and failure-isolated: it always returns a
"success" summary whose count is the run's `total_added`; a category whose page
fetch fails leaves the state untouched and the run continues; the committed
store only ever grows by whole category batches; and when a category's item loop
aborts (insert failure) or its commit fails, that category's rows are rolled
back — the committed store is exactly what it was before the category. -/
theorem incremental_run_always_summarises
    (fetchDetail : String → String → Option FetchedData)
    (failsInsert : FetchedData → Bool) (cats : List CatOracle) (initial : List String) :
    (scrape_and_save_movies fetchDetail failsInsert cats initial).1.status = "success" ∧
    (scrape_and_save_movies fetchDetail failsInsert cats initial).1.movies_added_or_updated
      = (scrape_and_save_movies fetchDetail failsInsert cats initial).2.added ∧
    (∀ st c, c.page = none → stepCategory fetchDetail failsInsert st c = st) ∧
    (∀ st c, ∃ ext, (stepCategory fetchDetail failsInsert st c).committed
        = st.committed ++ ext) ∧
    (∀ st c links, c.page = some links →
      ((runCategoryItems fetchDetail failsInsert st.committed
          (collectNewTopics st.existing links) [] st.existing st.added).1 = true
        ∨ c.commitOk = false) →
      (stepCategory fetchDetail failsInsert st c).committed = st.committed) := by
  refine ⟨rfl, rfl, ?_, ?_, ?_⟩
  · intro st c h
    unfold stepCategory
    rw [h]
  · intro st c
    rcases hp : c.page with _ | links
    · refine ⟨[], ?_⟩
      unfold stepCategory
      rw [hp]
      simp
    · simp only [stepCategory, hp, stepCategoryCore]
      split
      · exact ⟨[], by simp⟩
      · split
        · exact ⟨_, rfl⟩
        · exact ⟨[], by simp⟩
  · intro st c links hp habort
    simp only [stepCategory, hp, stepCategoryCore]
    split
    · rfl
    · rename_i hcond
      split
      · rename_i hok
        rcases habort with h1 | h2
        · exact absurd h1 hcond
        · rw [h2] at hok
          exact absurd hok Bool.false_ne_true
      · rfl

/-- C9 (witness): a run over one category whose page fetch failed still returns a
"success" summary with a count. -/
theorem incremental_run_always_summarises_witness :
    (scrape_and_save_movies (fun _ _ => none) (fun _ => false)
        [⟨none, true⟩] ["u0"]).1.status = "success" ∧
    (scrape_and_save_movies (fun _ _ => none) (fun _ => false)
        [⟨none, true⟩] ["u0"]).1.movies_added_or_updated
      = (scrape_and_save_movies (fun _ _ => none) (fun _ => false)
          [⟨none, true⟩] ["u0"]).2.added :=
  ⟨(incremental_run_always_summarises (fun _ _ => none) (fun _ => false)
      [⟨none, true⟩] ["u0"]).1,
   (incremental_run_always_summarises (fun _ _ => none) (fun _ => false)
      [⟨none, true⟩] ["u0"]).2.1⟩

end Tamilflex
